import Mathlib

/-!
# `effort_controllers::JointPositionController`

A shallow embedding of `src/effort_controllers/src/joint_position_controller.cpp`.

* C++ `double` values are elements of an arbitrary linearly ordered field `α` with a floor
  function (`ℚ` and `ℝ` are instances); arithmetic is exact, rounding is not modelled.
* The constant `M_PI` of `<math.h>` is a parameter of every definition that uses it; the
  general theorems only need `0 < M_PI`.  Closed examples are evaluated over `ℚ` at
  `M_PI_value`, the exact rational value of the `double` constant.
* The member functions are pure functions on the record `JointPositionController`.
  `update` returns `none` where the C++ dereferences a null pointer (`joint_urdf_`, or
  `joint_urdf_->limits`).
* The header that declares the class and the packages the source file calls (`angles`,
  `control_toolbox`, `realtime_tools`, `hardware_interface`, `urdf`) are not among the
  sources; what is used from them is modelled below and marked.
* Only sequential executions are modelled: every call runs to completion before the next.
-/

/-! ## `angles` -/

namespace angles

variable {α : Type} [LinearOrderedField α] [FloorRing α]

/-- Modelled from the spec: `fmod` of `<math.h>`, used by the `angles` package, is not among
the sources.  `fmod x y` is `x - n * y` with `n` the quotient `x / y` truncated towards zero. -/
def fmod (x y : α) : α :=
  x - (if 0 ≤ x / y then ((Int.floor (x / y) : ℤ) : α) else ((Int.ceil (x / y) : ℤ) : α)) * y

/-- Modelled from the spec: `angles::normalize_angle_positive` (package `angles`, not among the
sources) brings an angle into `[0, 2π)`:
`fmod(fmod(angle, 2.0*M_PI) + 2.0*M_PI, 2.0*M_PI)`. -/
def normalize_angle_positive (M_PI angle : α) : α :=
  fmod (fmod angle (2 * M_PI) + 2 * M_PI) (2 * M_PI)

/-- Modelled from the spec: `angles::normalize_angle` (package `angles`, not among the sources)
brings an angle into the wraparound range `(-π, π]` of spec §4.3 and §8:
`a = normalize_angle_positive(angle); if (a > M_PI) a -= 2.0*M_PI; return a`. -/
def normalize_angle (M_PI angle : α) : α :=
  let a := normalize_angle_positive M_PI angle
  if a > M_PI then a - 2 * M_PI else a

/-- Modelled from the spec: `angles::shortest_angular_distance(from, to)` (package `angles`, not
among the sources), the "shortest signed angular distance with wraparound at ±π" of spec §4.3:
the angle to add to `from` to reach `to`, `normalize_angle(to - from)`. -/
def shortest_angular_distance (M_PI from_ to_ : α) : α :=
  normalize_angle M_PI (to_ - from_)

/-- Modelled from the spec: `angles::two_pi_complement` (package `angles`, not among the
sources), the same rotation taken the other way round: `2π + angle` for a negative angle,
`angle - 2π` for a positive one, `2π` for zero. -/
def two_pi_complement (M_PI angle : α) : α :=
  let angle := if angle > 2 * M_PI ∨ angle < -2 * M_PI then fmod angle (2 * M_PI) else angle
  if angle < 0 then 2 * M_PI + angle
  else if angle > 0 then -2 * M_PI + angle
  else 2 * M_PI

/-- Modelled from the spec: `angles::find_min_max_delta` (package `angles`, not among the
sources), the helper of the limit-respecting distance: the least and greatest rotation that
can be made from `from` before a joint stop is hit, and whether `from` lies within the limits.
The result is `(return value, result_min_delta, result_max_delta)`. -/
def find_min_max_delta (M_PI from_ left_limit right_limit : α) : Bool × α × α :=
  let delta0 := shortest_angular_distance M_PI from_ left_limit
  let delta1 := shortest_angular_distance M_PI from_ right_limit
  let delta2 := two_pi_complement M_PI delta0
  let delta3 := two_pi_complement M_PI delta1
  if delta0 = 0 then (true, delta0, max delta1 delta3)
  else if delta1 = 0 then (true, min delta0 delta2, delta1)
  else
    let delta_min := if delta2 < delta0 then delta2 else delta0
    let delta_min_2pi := if delta2 < delta0 then delta0 else delta2
    let delta_max := if delta3 > delta1 then delta3 else delta1
    let delta_max_2pi := if delta3 > delta1 then delta1 else delta3
    if delta_min ≤ delta_max_2pi ∨ delta_max ≥ delta_min_2pi then
      (decide (left_limit = -M_PI ∧ right_limit = M_PI), delta_max_2pi, delta_min_2pi)
    else (true, delta_min, delta_max)

/-- Modelled from the spec: `angles::shortest_angular_distance_with_limits(from, to, left_limit,
right_limit, shortest_angle)` (package `angles`, not among the sources), the "shortest angular
distance constrained to respect [lower, upper] limits" of spec §4.3, whose exact definition the
spec (§8, §9) leaves to that library.  The result is `(return value, shortest_angle)`. -/
def shortest_angular_distance_with_limits (M_PI from_ to_ left_limit right_limit : α) :
    Bool × α :=
  let r := find_min_max_delta M_PI from_ left_limit right_limit
  let flag := r.1
  let min_delta := r.2.1
  let max_delta := r.2.2
  let delta := shortest_angular_distance M_PI from_ to_
  let delta_mod_2pi := two_pi_complement M_PI delta
  if flag then
    if delta ≥ min_delta ∧ delta ≤ max_delta then (true, delta)
    else if delta_mod_2pi ≥ min_delta ∧ delta_mod_2pi ≤ max_delta then (true, delta_mod_2pi)
    else
      let rt := find_min_max_delta M_PI to_ left_limit right_limit
      let min_delta_to := rt.2.1
      let max_delta_to := rt.2.2
      if |min_delta_to| < |max_delta_to| then (false, max delta delta_mod_2pi)
      else if |min_delta_to| > |max_delta_to| then (false, min delta delta_mod_2pi)
      else if |delta| < |delta_mod_2pi| then (false, delta) else (false, delta_mod_2pi)
  else
    if |min_delta| < |max_delta| then (false, min delta delta_mod_2pi)
    else if |min_delta| > |max_delta| then (false, max delta delta_mod_2pi)
    else if |delta| < |delta_mod_2pi| then (false, delta) else (false, delta_mod_2pi)

end angles

/-- The value of the `double` constant `M_PI`, as an exact rational. -/
def M_PI_value : ℚ := 884279719003555 / 281474976710656

/-! ## `urdf` -/

namespace urdf

/-- Modelled from the spec: the joint topology classification of spec §3 and §6, with the
enumerators of `urdf::Joint` (package `urdf`, not among the sources).  The controller only
tests for `REVOLUTE` and `CONTINUOUS`. -/
inductive JointType where
  | UNKNOWN
  | REVOLUTE
  | CONTINUOUS
  | PRISMATIC
  | FLOATING
  | PLANAR
  | FIXED
  deriving DecidableEq, Repr

/-- Modelled from the spec: `urdf::JointLimits`, the `[lower, upper]` position limits. -/
structure JointLimits (α : Type) where
  lower : α
  upper : α

/-- Modelled from the spec: `urdf::Joint`.  `limits` is a shared pointer in the C++ and may be
null, which is `none` here. -/
structure Joint (α : Type) where
  name : String
  type : JointType
  limits : Option (JointLimits α)

end urdf

/-! ## `hardware_interface` -/

namespace hardware_interface

/-- Modelled from the spec: `hardware_interface::JointHandle`, the actuator interface of spec
§6: the measured position and velocity, and the effort command last written. -/
structure JointHandle (α : Type) where
  name : String
  pos : α
  vel : α
  cmd : α

variable {α : Type}

/-- Actuator interface: `getName()`. -/
def JointHandle.getName (h : JointHandle α) : String := h.name

/-- Actuator interface: `getPosition()`. -/
def JointHandle.getPosition (h : JointHandle α) : α := h.pos

/-- Actuator interface: `getVelocity()`. -/
def JointHandle.getVelocity (h : JointHandle α) : α := h.vel

/-- Actuator interface: `setCommand(effort)`. -/
def JointHandle.setCommand (h : JointHandle α) (effort : α) : JointHandle α :=
  { h with cmd := effort }

end hardware_interface

/-! ## `control_toolbox` -/

namespace control_toolbox

/-- Modelled from the spec: the PID engine of spec §4.1 (`control_toolbox::Pid`, not among the
sources): the gains `{p, i, d, i_max, i_min}` and the integral and derivative state. -/
structure Pid (α : Type) where
  p_gain_ : α
  i_gain_ : α
  d_gain_ : α
  i_max_ : α
  i_min_ : α
  p_error_ : α
  d_error_ : α
  i_term_ : α
  cmd_ : α

variable {α : Type} [LinearOrderedField α]

/-- Modelled from the spec: `queryGains() -> (p, i, d, i_max, i_min)`. -/
def Pid.getGains (pid : Pid α) : α × α × α × α × α :=
  (pid.p_gain_, pid.i_gain_, pid.d_gain_, pid.i_max_, pid.i_min_)

/-- Modelled from the spec: `reset()` clears the accumulated integral and the derivative
history. -/
def Pid.reset (pid : Pid α) : Pid α :=
  { pid with p_error_ := 0, d_error_ := 0, i_term_ := 0, cmd_ := 0 }

/-- Modelled from the spec: `computeCommand(error, errorDerivative, dt)` returns the effort
P-term + I-term + D-term, where the I-term accumulates `i * dt * error` (time-weighted) and is
clamped to `[i_min, i_max]`, and the D-term uses the derivative that is passed in.  For
`dt <= 0` the integration is skipped for that call.  The result is the new engine state and
the effort. -/
def Pid.computeCommand (pid : Pid α) (error error_dot dt : α) : Pid α × α :=
  let p_term := pid.p_gain_ * error
  let i_term := if dt ≤ 0 then pid.i_term_ else pid.i_term_ + pid.i_gain_ * dt * error
  let i_term := max pid.i_min_ (min i_term pid.i_max_)
  let d_term := pid.d_gain_ * error_dot
  let cmd := p_term + i_term + d_term
  ({ pid with p_error_ := error, d_error_ := error_dot, i_term_ := i_term, cmd_ := cmd }, cmd)

end control_toolbox

/-! ## `realtime_tools` -/

namespace realtime_tools

/-- Modelled from the spec: the real-time setpoint channel of spec §4.2
(`realtime_tools::RealtimeBuffer`, not among the sources), as the double buffer of spec §9: the
slot the real-time side reads, the slot the non-real-time side writes, and the flag that a
write has landed.  Executions are sequential, so no lock is modelled. -/
structure RealtimeBuffer (T : Type) where
  realtime_data_ : T
  non_realtime_data_ : T
  new_data_available_ : Bool

variable {T : Type}

/-- Modelled from the spec: `initialize(value)` establishes the initial value in both slots. -/
def RealtimeBuffer.initRT (b : RealtimeBuffer T) (data : T) : RealtimeBuffer T :=
  { b with realtime_data_ := data, non_realtime_data_ := data }

/-- Modelled from the spec: `write(value)` stores the value in the non-real-time slot and
flags it. -/
def RealtimeBuffer.writeFromNonRT (b : RealtimeBuffer T) (data : T) : RealtimeBuffer T :=
  { b with non_realtime_data_ := data, new_data_available_ := true }

/-- Modelled from the spec: `readLatest()` swaps the slots when a write has landed and returns
the real-time slot.  The result is the new buffer state and the value read. -/
def RealtimeBuffer.readFromRT (b : RealtimeBuffer T) : RealtimeBuffer T × T :=
  if b.new_data_available_ then
    ({ realtime_data_ := b.non_realtime_data_, non_realtime_data_ := b.realtime_data_,
       new_data_available_ := false }, b.non_realtime_data_)
  else (b, b.realtime_data_)

end realtime_tools

/-! ## `controllers_msgs` -/

namespace controllers_msgs

/-- The diagnostic record `controllers_msgs::JointControllerState` (spec §3,
`ControllerState`), with the fields `update` fills in. -/
structure JointControllerState (α : Type) where
  stamp : α
  set_point : α
  process_value : α
  process_value_dot : α
  error : α
  time_step : α
  command : α
  p : α
  i : α
  d : α
  i_clamp : α

end controllers_msgs

/-! ## `effort_controllers` -/

namespace effort_controllers

open hardware_interface control_toolbox realtime_tools controllers_msgs

variable {α : Type} [LinearOrderedField α] [FloorRing α]

/-- The data members of `JointPositionController`.  The class is declared in a header that is
not among the sources; the members are those the source file uses.  `loop_count_` is a machine
integer in the C++ and an unbounded counter here.  `controller_state_publisher_` is a scoped
pointer (null until the node-handle `init` creates the publisher); it holds the publisher's
message buffer `msg_`. -/
structure JointPositionController (α : Type) where
  joint_ : JointHandle α
  joint_urdf_ : Option (urdf.Joint α)
  pid_controller_ : Pid α
  command_ : RealtimeBuffer α
  loop_count_ : Nat
  controller_state_publisher_ : Option (JointControllerState α)

/-- Lines 42–44: the constructor sets `loop_count_` to zero; the other members are default
constructed. -/
def JointPositionController.new : JointPositionController α :=
  { joint_ := { name := "", pos := 0, vel := 0, cmd := 0 }
    joint_urdf_ := none
    pid_controller_ :=
      { p_gain_ := 0, i_gain_ := 0, d_gain_ := 0, i_max_ := 0, i_min_ := 0,
        p_error_ := 0, d_error_ := 0, i_term_ := 0, cmd_ := 0 }
    command_ := { realtime_data_ := 0, non_realtime_data_ := 0, new_data_available_ := false }
    loop_count_ := 0
    controller_state_publisher_ := none }

/-- Lines 98–101: `getGains`. -/
def getGains (s : JointPositionController α) : α × α × α × α × α :=
  s.pid_controller_.getGains

/-- Lines 103–106: `getJointName`. -/
def getJointName (s : JointPositionController α) : String :=
  s.joint_.getName

/-- Lines 108–115: `setCommand`. -/
def setCommand (s : JointPositionController α) (cmd : α) : JointPositionController α :=
  { s with command_ := s.command_.writeFromNonRT cmd }

/-- Lines 118–122: `starting`. -/
def starting (s : JointPositionController α) (_time : α) : JointPositionController α :=
  { s with
    command_ := s.command_.initRT s.joint_.getPosition
    pid_controller_ := s.pid_controller_.reset }

/-- The local variables of one `update` call, and the diagnostic snapshot it published
(`none` when it published nothing). -/
structure UpdateLocals (α : Type) where
  command : α
  error : α
  vel_error : α
  commanded_effort : α
  published : Option (JointControllerState α)

/-- Lines 125–181: `update(time, period)`.  `trylock` is the outcome of the publisher's
`trylock()`, should it be called.  The result is `none` when a null `joint_urdf_` or a null
`joint_urdf_->limits` is dereferenced. -/
def update (M_PI : α) (s : JointPositionController α) (time period : α) (trylock : Bool) :
    Option (JointPositionController α × UpdateLocals α) :=
  let rd := s.command_.readFromRT
  let command := rd.2
  match s.joint_urdf_ with
  | none => none
  | some joint_urdf =>
    -- Compute position error
    let error? : Option α :=
      if joint_urdf.type = urdf.JointType.REVOLUTE then
        match joint_urdf.limits with
        | none => none
        | some limits =>
          some (angles.shortest_angular_distance_with_limits M_PI command s.joint_.getPosition
            limits.lower limits.upper).2
      else if joint_urdf.type = urdf.JointType.CONTINUOUS then
        some (angles.shortest_angular_distance M_PI command s.joint_.getPosition)
      else -- prismatic
        some (command - s.joint_.getPosition)
    match error? with
    | none => none
    | some error =>
      -- Compute velocity error assuming desired velocity is 0
      let vel_error := 0 - s.joint_.getVelocity
      let pc := s.pid_controller_.computeCommand error vel_error period
      let commanded_effort := pc.2
      let joint := s.joint_.setCommand commanded_effort
      -- publish state
      let pub : Option (JointControllerState α) × Option (JointControllerState α) :=
        if s.loop_count_ % 10 = 0 then
          match s.controller_state_publisher_ with
          | none => (none, none)
          | some _ =>
            if trylock then
              let gains := pc.1.getGains
              let msg : JointControllerState α :=
                { stamp := time
                  set_point := command
                  process_value := joint.getPosition
                  process_value_dot := joint.getVelocity
                  error := error
                  time_step := period
                  command := commanded_effort
                  p := gains.1
                  i := gains.2.1
                  d := gains.2.2.1
                  i_clamp := gains.2.2.2.1 }
              (some msg, some msg)
            else (s.controller_state_publisher_, none)
        else (s.controller_state_publisher_, none)
      some
        ({ joint_ := joint
           joint_urdf_ := s.joint_urdf_
           pid_controller_ := pc.1
           command_ := rd.1
           loop_count_ := s.loop_count_ + 1
           controller_state_publisher_ := pub.1 },
         { command := command
           error := error
           vel_error := vel_error
           commanded_effort := commanded_effort
           published := pub.2 })

/-- The setpoint the next `update` reads: `*(command_.readFromRT())`. -/
def setpoint (s : JointPositionController α) : α :=
  s.command_.readFromRT.2

/-- The joint metadata `update` dereferences is present: `joint_urdf_` is not null and, for a
revolute joint, neither is `joint_urdf_->limits`. -/
def metadataPresent (s : JointPositionController α) : Bool :=
  match s.joint_urdf_ with
  | none => false
  | some j => j.type ≠ urdf.JointType.REVOLUTE || j.limits.isSome

end effort_controllers

/-! ## Example configurations -/

namespace effort_controllers

open hardware_interface control_toolbox realtime_tools controllers_msgs

/-- A PID engine with the given gains and zero state. -/
def examplePid (p i d i_max i_min : ℚ) : Pid ℚ :=
  { p_gain_ := p, i_gain_ := i, d_gain_ := d, i_max_ := i_max, i_min_ := i_min,
    p_error_ := 0, d_error_ := 0, i_term_ := 0, cmd_ := 0 }

/-- An initialised controller for the joint `j` whose measured position is `pos`. -/
def exampleReady (j : urdf.Joint ℚ) (pos : ℚ) (pid : Pid ℚ) : JointPositionController ℚ :=
  { (JointPositionController.new : JointPositionController ℚ) with
    joint_ := { name := j.name, pos := pos, vel := 0, cmd := 0 }
    joint_urdf_ := some j
    pid_controller_ := pid }

/-- The controller of `exampleReady`, started and then commanded to the setpoint `cmd`. -/
def exampleCommanded (j : urdf.Joint ℚ) (pos cmd : ℚ) (pid : Pid ℚ) :
    JointPositionController ℚ :=
  setCommand (starting (exampleReady j pos pid) 0) cmd

/-- A revolute joint with the limits `[lower, upper]`. -/
def exampleRevolute (lower upper : ℚ) : urdf.Joint ℚ :=
  { name := "joint", type := urdf.JointType.REVOLUTE,
    limits := some { lower := lower, upper := upper } }

/-- A continuous joint. -/
def exampleContinuous : urdf.Joint ℚ :=
  { name := "joint", type := urdf.JointType.CONTINUOUS, limits := none }

/-- A prismatic joint with the limits `[0, 1]`. -/
def examplePrismatic : urdf.Joint ℚ :=
  { name := "joint", type := urdf.JointType.PRISMATIC,
    limits := some { lower := 0, upper := 1 } }

end effort_controllers

namespace angles
variable {α : Type} [LinearOrderedField α] [FloorRing α]

lemma fmod_spec (x y : α) (hy : 0 < y) :
    (∃ k : ℤ, fmod x y = x - (k : α) * y) ∧
    (0 ≤ x → 0 ≤ fmod x y ∧ fmod x y < y) ∧
    (x < 0 → -y < fmod x y ∧ fmod x y ≤ 0) := by
  have hxy : x / y * y = x := div_mul_cancel₀ x (ne_of_gt hy)
  have hfl := Int.floor_le (x / y)
  have hfl2 := Int.lt_floor_add_one (x / y)
  have hce := Int.le_ceil (x / y)
  have hce2 := Int.ceil_lt_add_one (x / y)
  have m1 := mul_le_mul_of_nonneg_right hfl (le_of_lt hy)
  have m2 := mul_lt_mul_of_pos_right hfl2 hy
  have m3 := mul_le_mul_of_nonneg_right hce (le_of_lt hy)
  have m4 := mul_lt_mul_of_pos_right hce2 hy
  rw [add_mul, one_mul] at m2 m4
  rw [hxy] at m1 m3 m4
  refine ⟨?_, ?_, ?_⟩
  · unfold fmod
    split_ifs
    · exact ⟨_, rfl⟩
    · exact ⟨_, rfl⟩
  · intro hx
    have h0 : 0 ≤ x / y := div_nonneg hx (le_of_lt hy)
    unfold fmod
    rw [if_pos h0]
    constructor <;> linarith
  · intro hx
    have h0 : ¬ 0 ≤ x / y := not_le.mpr (div_neg_of_neg_of_pos hx hy)
    unfold fmod
    rw [if_neg h0]
    constructor <;> linarith

lemma normalize_angle_positive_spec (M_PI x : α) (hpi : 0 < M_PI) :
    (∃ k : ℤ, normalize_angle_positive M_PI x = x + 2 * M_PI * (k : α)) ∧
    0 ≤ normalize_angle_positive M_PI x ∧ normalize_angle_positive M_PI x < 2 * M_PI := by
  have h2 : (0 : α) < 2 * M_PI := by linarith
  obtain ⟨⟨k1, hk1⟩, hp1, hn1⟩ := fmod_spec x (2 * M_PI) h2
  have hr : -(2 * M_PI) < fmod x (2 * M_PI) := by
    rcases le_or_lt 0 x with hx | hx
    · have := (hp1 hx).1; linarith
    · exact (hn1 hx).1
  obtain ⟨⟨k2, hk2⟩, hp2, -⟩ := fmod_spec (fmod x (2 * M_PI) + 2 * M_PI) (2 * M_PI) h2
  have hp2 := hp2 (by linarith)
  unfold normalize_angle_positive
  refine ⟨⟨1 - k1 - k2, ?_⟩, hp2.1, hp2.2⟩
  rw [hk2, hk1]
  push_cast
  ring

lemma normalize_angle_spec (M_PI x : α) (hpi : 0 < M_PI) :
    (∃ k : ℤ, normalize_angle M_PI x = x + 2 * M_PI * (k : α)) ∧
    -M_PI < normalize_angle M_PI x ∧ normalize_angle M_PI x ≤ M_PI := by
  obtain ⟨⟨k, hk⟩, h0, h1⟩ := normalize_angle_positive_spec M_PI x hpi
  unfold normalize_angle
  simp only
  split_ifs with h
  · refine ⟨⟨k - 1, ?_⟩, by linarith, by linarith⟩
    rw [hk]; push_cast; ring
  · exact ⟨⟨k, hk⟩, by linarith, by linarith⟩

lemma two_pi_int_unique (M_PI : α) (hpi : 0 < M_PI) (j : ℤ)
    (h1 : -(2 * M_PI) < 2 * M_PI * (j : α)) (h2 : 2 * M_PI * (j : α) < 2 * M_PI) : j = 0 := by
  by_contra hj
  rcases lt_or_gt_of_ne hj with h | h
  · have : (j : α) ≤ -1 := by exact_mod_cast Int.le_sub_one_of_lt h
    nlinarith
  · have : (1 : α) ≤ (j : α) := by exact_mod_cast h
    nlinarith

lemma normalize_angle_eq (M_PI x : α) (hpi : 0 < M_PI) (k : ℤ)
    (h1 : -M_PI < x + 2 * M_PI * (k : α)) (h2 : x + 2 * M_PI * (k : α) ≤ M_PI) :
    normalize_angle M_PI x = x + 2 * M_PI * (k : α) := by
  obtain ⟨⟨m, hm⟩, l1, l2⟩ := normalize_angle_spec M_PI x hpi
  have : m - k = 0 := by
    apply two_pi_int_unique M_PI hpi
    · push_cast; linarith
    · push_cast; linarith
  have hmk : m = k := by omega
  rw [hm, hmk]


lemma two_pi_complement_neg (M_PI a : α) (h1 : -(2 * M_PI) ≤ a) (h2 : a < 0) :
    two_pi_complement M_PI a = 2 * M_PI + a := by
  have hc : ¬ (a > 2 * M_PI ∨ a < -2 * M_PI) := by
    rintro (h | h) <;> linarith
  simp only [two_pi_complement, if_neg hc, if_pos h2]

lemma two_pi_complement_pos (M_PI a : α) (h1 : a ≤ 2 * M_PI) (h2 : 0 < a) :
    two_pi_complement M_PI a = -2 * M_PI + a := by
  have hc : ¬ (a > 2 * M_PI ∨ a < -2 * M_PI) := by
    rintro (h | h) <;> linarith
  have h3 : ¬ a < 0 := by linarith
  simp only [two_pi_complement, if_neg hc, if_neg h3]
  rw [if_pos (show a > 0 from h2)]

lemma two_pi_complement_zero (M_PI : α) (hpi : 0 < M_PI) :
    two_pi_complement M_PI 0 = 2 * M_PI := by
  have hc : ¬ ((0 : α) > 2 * M_PI ∨ (0 : α) < -2 * M_PI) := by
    rintro (h | h) <;> linarith
  unfold two_pi_complement
  simp only [if_neg hc]
  simp

lemma shortest_angular_distance_eq (M_PI f t : α) (hpi : 0 < M_PI) (k : ℤ)
    (h1 : -M_PI < t - f + 2 * M_PI * (k : α)) (h2 : t - f + 2 * M_PI * (k : α) ≤ M_PI) :
    shortest_angular_distance M_PI f t = t - f + 2 * M_PI * (k : α) :=
  normalize_angle_eq M_PI (t - f) hpi k h1 h2

/-- Values of the wrapped distance from `f` to `t` when `|t - f| < 2π`. -/
lemma shortest_angular_distance_cases (M_PI f t : α) (hpi : 0 < M_PI)
    (h1 : -(2 * M_PI) < t - f) (h2 : t - f < 2 * M_PI) :
    (t - f ≤ -M_PI ∧ shortest_angular_distance M_PI f t = t - f + 2 * M_PI) ∨
    (-M_PI < t - f ∧ t - f ≤ M_PI ∧ shortest_angular_distance M_PI f t = t - f) ∨
    (M_PI < t - f ∧ shortest_angular_distance M_PI f t = t - f - 2 * M_PI) := by
  rcases le_or_lt (t - f) (-M_PI) with ha | ha
  · left
    refine ⟨ha, ?_⟩
    have := shortest_angular_distance_eq M_PI f t hpi 1 (by push_cast; linarith) (by push_cast; linarith)
    rw [this]; push_cast; ring
  · rcases le_or_lt (t - f) M_PI with hb | hb
    · right; left
      refine ⟨ha, hb, ?_⟩
      have := shortest_angular_distance_eq M_PI f t hpi 0 (by push_cast; linarith) (by push_cast; linarith)
      rw [this]; push_cast; ring
    · right; right
      refine ⟨hb, ?_⟩
      have := shortest_angular_distance_eq M_PI f t hpi (-1) (by push_cast; linarith) (by push_cast; linarith)
      rw [this]; push_cast; ring

lemma find_min_max_delta_zero_left (M_PI f l r : α)
    (h0 : shortest_angular_distance M_PI f l = 0) :
    find_min_max_delta M_PI f l r =
      (true, 0, max (shortest_angular_distance M_PI f r)
        (two_pi_complement M_PI (shortest_angular_distance M_PI f r))) := by
  simp only [find_min_max_delta, h0, if_true]

lemma find_min_max_delta_zero_right (M_PI f l r : α)
    (h0 : shortest_angular_distance M_PI f l ≠ 0)
    (h1 : shortest_angular_distance M_PI f r = 0) :
    find_min_max_delta M_PI f l r =
      (true, min (shortest_angular_distance M_PI f l)
        (two_pi_complement M_PI (shortest_angular_distance M_PI f l)), 0) := by
  simp only [find_min_max_delta, if_neg h0, h1, if_true]

lemma find_min_max_delta_general (M_PI f l r d0 d1 d2 d3 mn mn2 mx mx2 : α)
    (e0 : shortest_angular_distance M_PI f l = d0) (e1 : shortest_angular_distance M_PI f r = d1)
    (t0 : two_pi_complement M_PI d0 = d2) (t1 : two_pi_complement M_PI d1 = d3)
    (h0 : d0 ≠ 0) (h1 : d1 ≠ 0)
    (hmn : (if d2 < d0 then d2 else d0) = mn) (hmn2 : (if d2 < d0 then d0 else d2) = mn2)
    (hmx : (if d3 > d1 then d3 else d1) = mx) (hmx2 : (if d3 > d1 then d1 else d3) = mx2) :
    find_min_max_delta M_PI f l r =
      if mn ≤ mx2 ∨ mx ≥ mn2 then (decide (l = -M_PI ∧ r = M_PI), mx2, mn2)
      else (true, mn, mx) := by
  simp only [find_min_max_delta, e0, e1, t0, t1, if_neg h0, if_neg h1, hmn, hmn2, hmx, hmx2]

/-- The lower limit lies strictly less than a full turn below `f`: the two candidate
deltas towards it are `l - f` and `l - f + 2π`. -/
lemma min_side (M_PI f l : α) (hpi : 0 < M_PI) (h1 : -(2 * M_PI) < l - f) (h2 : l - f < 0) :
    ∃ d0 d2 : α, shortest_angular_distance M_PI f l = d0 ∧ two_pi_complement M_PI d0 = d2 ∧
      d0 ≠ 0 ∧ (if d2 < d0 then d2 else d0) = l - f ∧
      (if d2 < d0 then d0 else d2) = l - f + 2 * M_PI ∧ min d0 d2 = l - f := by
  rcases shortest_angular_distance_cases M_PI f l hpi h1 (by linarith) with
    ⟨a0, e0⟩ | ⟨a0, -, e0⟩ | ⟨a0, -⟩
  · refine ⟨l - f + 2 * M_PI, -2 * M_PI + (l - f + 2 * M_PI), e0,
      two_pi_complement_pos M_PI _ (by linarith) (by linarith), by intro h; linarith, ?_, ?_, ?_⟩
    · rw [if_pos (by linarith)]; ring
    · rw [if_pos (by linarith)]
    · rw [min_eq_right (by linarith)]; ring
  · refine ⟨l - f, 2 * M_PI + (l - f), e0,
      two_pi_complement_neg M_PI _ (by linarith) (by linarith), by intro h; linarith, ?_, ?_, ?_⟩
    · rw [if_neg (by linarith)]
    · rw [if_neg (by linarith)]; ring
    · rw [min_eq_left (by linarith)]
  · exfalso; linarith

/-- The upper limit lies strictly less than a full turn above `f`. -/
lemma max_side (M_PI f r : α) (hpi : 0 < M_PI) (h1 : 0 < r - f) (h2 : r - f < 2 * M_PI) :
    ∃ d1 d3 : α, shortest_angular_distance M_PI f r = d1 ∧ two_pi_complement M_PI d1 = d3 ∧
      d1 ≠ 0 ∧ (if d3 > d1 then d3 else d1) = r - f ∧
      (if d3 > d1 then d1 else d3) = r - f - 2 * M_PI ∧ max d1 d3 = r - f := by
  rcases shortest_angular_distance_cases M_PI f r hpi (by linarith) h2 with
    ⟨a0, -⟩ | ⟨a0, b0, e0⟩ | ⟨a0, e0⟩
  · exfalso; linarith
  · refine ⟨r - f, -2 * M_PI + (r - f), e0,
      two_pi_complement_pos M_PI _ (by linarith) (by linarith), by intro h; linarith, ?_, ?_, ?_⟩
    · rw [if_neg (by linarith)]
    · rw [if_neg (by linarith)]; ring
    · rw [max_eq_left (by linarith)]
  · refine ⟨r - f - 2 * M_PI, 2 * M_PI + (r - f - 2 * M_PI), e0,
      two_pi_complement_neg M_PI _ (by linarith) (by linarith), by intro h; linarith, ?_, ?_, ?_⟩
    · rw [if_pos (by linarith)]; ring
    · rw [if_pos (by linarith)]
    · rw [max_eq_right (by linarith)]; ring

lemma shortest_angular_distance_self (M_PI f : α) (hpi : 0 < M_PI) :
    shortest_angular_distance M_PI f f = 0 := by
  have := shortest_angular_distance_eq M_PI f f hpi 0 (by push_cast; linarith) (by push_cast; linarith)
  rw [this]; push_cast; ring

/-- With `f` strictly between the limits (each less than a full turn away). -/
lemma find_min_max_delta_interior (M_PI f l r : α) (hpi : 0 < M_PI)
    (h1 : -(2 * M_PI) < l - f) (h2 : l - f < 0) (h3 : 0 < r - f) (h4 : r - f < 2 * M_PI) :
    find_min_max_delta M_PI f l r =
      if l - f ≤ r - f - 2 * M_PI ∨ r - f ≥ l - f + 2 * M_PI then
        (decide (l = -M_PI ∧ r = M_PI), r - f - 2 * M_PI, l - f + 2 * M_PI)
      else (true, l - f, r - f) := by
  obtain ⟨d0, d2, e0, t0, z0, hmn, hmn2, -⟩ := min_side M_PI f l hpi h1 h2
  obtain ⟨d1, d3, e1, t1, z1, hmx, hmx2, -⟩ := max_side M_PI f r hpi h3 h4
  exact find_min_max_delta_general M_PI f l r d0 d1 d2 d3 _ _ _ _ e0 e1 t0 t1 z0 z1 hmn hmn2 hmx hmx2

/-- Inside limits that lie in `[-π, π]` and do not span the full turn, `find_min_max_delta`
reports the exact room to either limit. -/
lemma find_min_max_delta_inside (M_PI f l r : α) (hpi : 0 < M_PI)
    (hspan : r - l < 2 * M_PI) (hlf : l ≤ f) (hfr : f ≤ r) :
    find_min_max_delta M_PI f l r = (true, l - f, if l = r then 2 * M_PI else r - f) := by
  rcases eq_or_lt_of_le hlf with q0 | q0
  · subst q0
    rw [find_min_max_delta_zero_left M_PI l l r (shortest_angular_distance_self M_PI l hpi)]
    rcases eq_or_lt_of_le hfr with q1 | q1
    · subst q1
      rw [shortest_angular_distance_self M_PI l hpi, two_pi_complement_zero M_PI hpi, if_pos rfl,
        max_eq_right (by linarith), sub_self]
    · obtain ⟨d1, d3, e1, t1, -, -, -, hmax⟩ := max_side M_PI l r hpi (by linarith) hspan
      rw [e1, t1, hmax, if_neg (ne_of_lt q1), sub_self]
  · have hne : l ≠ r := ne_of_lt (lt_of_lt_of_le q0 hfr)
    rw [if_neg hne]
    obtain ⟨d0, d2, e0, t0, z0, -, -, hmin⟩ := min_side M_PI f l hpi (by linarith) (by linarith)
    rcases eq_or_lt_of_le hfr with q1 | q1
    · subst q1
      rw [find_min_max_delta_zero_right M_PI f l f (by rw [e0]; exact z0)
        (shortest_angular_distance_self M_PI f hpi), e0, t0, hmin, sub_self]
    · rw [find_min_max_delta_interior M_PI f l r hpi (by linarith) (by linarith) (by linarith)
        (by linarith), if_neg]
      rintro (h | h) <;> linarith


lemma with_limits_first (M_PI f t l r mn mx : α)
    (hf : find_min_max_delta M_PI f l r = (true, mn, mx))
    (h1 : mn ≤ shortest_angular_distance M_PI f t)
    (h2 : shortest_angular_distance M_PI f t ≤ mx) :
    shortest_angular_distance_with_limits M_PI f t l r =
      (true, shortest_angular_distance M_PI f t) := by
  have hc : shortest_angular_distance M_PI f t ≥ mn ∧ shortest_angular_distance M_PI f t ≤ mx :=
    ⟨h1, h2⟩
  simp only [shortest_angular_distance_with_limits, hf, if_true, if_pos hc]

lemma with_limits_second (M_PI f t l r mn mx dm : α)
    (hf : find_min_max_delta M_PI f l r = (true, mn, mx))
    (hd : two_pi_complement M_PI (shortest_angular_distance M_PI f t) = dm)
    (h0 : ¬ (shortest_angular_distance M_PI f t ≥ mn ∧ shortest_angular_distance M_PI f t ≤ mx))
    (h1 : mn ≤ dm) (h2 : dm ≤ mx) :
    shortest_angular_distance_with_limits M_PI f t l r = (true, dm) := by
  have hc : dm ≥ mn ∧ dm ≤ mx := ⟨h1, h2⟩
  simp only [shortest_angular_distance_with_limits, hf, if_true, if_neg h0, hd, if_pos hc]

/-- Between limits that span less than a full turn, the limit-respecting distance from `f`
to `t` is the plain difference `t - f`. -/
lemma with_limits_inside (M_PI f t l r : α) (hpi : 0 < M_PI) (hspan : r - l < 2 * M_PI)
    (hlf : l ≤ f) (hfr : f ≤ r) (hlt : l ≤ t) (htr : t ≤ r) :
    shortest_angular_distance_with_limits M_PI f t l r = (true, t - f) := by
  have hf := find_min_max_delta_inside M_PI f l r hpi hspan hlf hfr
  have hmx : r - f ≤ (if l = r then 2 * M_PI else r - f) := by
    split_ifs with h
    · subst h; linarith
    · exact le_refl _
  rcases shortest_angular_distance_cases M_PI f t hpi (by linarith) (by linarith) with
    ⟨a, e⟩ | ⟨a, b, e⟩ | ⟨a, e⟩
  · -- t - f ≤ -π : the wrapped value overshoots the upper limit
    have hne : l ≠ r := by
      intro h; subst h
      have : t = f := le_antisymm (by linarith) (by linarith)
      subst this; linarith
    rw [if_neg hne] at hf
    have hd : two_pi_complement M_PI (shortest_angular_distance M_PI f t) = t - f := by
      rw [e, two_pi_complement_pos M_PI _ (by linarith) (by linarith)]; ring
    exact with_limits_second M_PI f t l r _ _ _ hf hd (by rw [e]; rintro ⟨-, h⟩; linarith)
      (by linarith) (by linarith)
  · rw [with_limits_first M_PI f t l r _ _ hf (by rw [e]; linarith) (by rw [e]; linarith), e]
  · -- π < t - f : the wrapped value undershoots the lower limit
    have hd : two_pi_complement M_PI (shortest_angular_distance M_PI f t) = t - f := by
      rw [e, two_pi_complement_neg M_PI _ (by linarith) (by linarith)]; ring
    exact with_limits_second M_PI f t l r _ _ _ hf hd (by rw [e]; rintro ⟨h, -⟩; linarith)
      (by linarith) (by linarith)

/-- A representative of an angle in `(-π, π]` has the least magnitude among all
representatives. -/
lemma abs_le_of_wrapped (M_PI e : α) (hpi : 0 < M_PI) (h1 : -M_PI < e) (h2 : e ≤ M_PI)
    (j : ℤ) : |e| ≤ |e + 2 * M_PI * (j : α)| := by
  have he : |e| ≤ M_PI := abs_le.mpr ⟨by linarith, h2⟩
  rcases lt_trichotomy j 0 with h | h | h
  · have hj : (j : α) ≤ -1 := by exact_mod_cast Int.le_sub_one_of_lt h
    have : e + 2 * M_PI * (j : α) ≤ -M_PI := by nlinarith
    calc |e| ≤ M_PI := he
      _ ≤ -(e + 2 * M_PI * (j : α)) := by linarith
      _ ≤ |e + 2 * M_PI * (j : α)| := neg_le_abs _
  · subst h; simp
  · have hj : (1 : α) ≤ (j : α) := by exact_mod_cast h
    have : M_PI ≤ e + 2 * M_PI * (j : α) := by nlinarith
    calc |e| ≤ M_PI := he
      _ ≤ e + 2 * M_PI * (j : α) := this
      _ ≤ |e + 2 * M_PI * (j : α)| := le_abs_self _

/-- The wrapped distance from `f` to `t` lies in `(-π, π]` and is the shorter of the two ways
round: its magnitude is the least of `|f - t + 2πk|` over the integers `k`, and is attained. -/
lemma shortest_angular_distance_shortest (M_PI f t : α) (hpi : 0 < M_PI) :
    -M_PI < shortest_angular_distance M_PI f t ∧ shortest_angular_distance M_PI f t ≤ M_PI ∧
    (∃ k : ℤ, |shortest_angular_distance M_PI f t| = |f - t + 2 * M_PI * (k : α)|) ∧
    ∀ k : ℤ, |shortest_angular_distance M_PI f t| ≤ |f - t + 2 * M_PI * (k : α)| := by
  obtain ⟨⟨m, hm⟩, h1, h2⟩ := normalize_angle_spec M_PI (t - f) hpi
  change shortest_angular_distance M_PI f t = _ at hm
  change -M_PI < shortest_angular_distance M_PI f t at h1
  change shortest_angular_distance M_PI f t ≤ M_PI at h2
  refine ⟨h1, h2, ⟨-m, ?_⟩, ?_⟩
  · rw [← abs_neg, hm]; congr 1; push_cast; ring
  · intro k
    have := abs_le_of_wrapped M_PI (shortest_angular_distance M_PI f t) hpi h1 h2 (-(m + k))
    rw [← abs_neg (f - t + 2 * M_PI * (k : α))]
    have e : -(f - t + 2 * M_PI * (k : α)) =
        shortest_angular_distance M_PI f t + 2 * M_PI * ((-(m + k) : ℤ) : α) := by
      rw [hm]; push_cast; ring
    rw [e]; exact this

end angles

namespace effort_controllers

open hardware_interface control_toolbox realtime_tools controllers_msgs

variable {α : Type} [LinearOrderedField α] [FloorRing α]

/-- The position error of lines 131–147 as a function of the joint metadata. -/
lemma update_error (M_PI : α) (s : JointPositionController α) (time period : α) (trylock : Bool)
    (r : JointPositionController α × UpdateLocals α)
    (h : update M_PI s time period trylock = some r) :
    ∃ j, s.joint_urdf_ = some j ∧
      (j.type = urdf.JointType.REVOLUTE →
        ∃ lim, j.limits = some lim ∧
          r.2.error = (angles.shortest_angular_distance_with_limits M_PI (setpoint s)
            s.joint_.getPosition lim.lower lim.upper).2) ∧
      (j.type = urdf.JointType.CONTINUOUS →
        r.2.error = angles.shortest_angular_distance M_PI (setpoint s) s.joint_.getPosition) ∧
      (j.type ≠ urdf.JointType.REVOLUTE → j.type ≠ urdf.JointType.CONTINUOUS →
        r.2.error = setpoint s - s.joint_.getPosition) := by
  unfold update at h
  cases hj : s.joint_urdf_ with
  | none => simp [hj] at h
  | some j =>
    refine ⟨j, rfl, ?_, ?_, ?_⟩
    · intro ht
      cases hl : j.limits with
      | none => simp [hj, ht, hl] at h
      | some lim =>
        refine ⟨lim, rfl, ?_⟩
        simp only [hj, ht, hl, if_true, Option.some.injEq] at h
        rw [← h]; rfl
    · intro ht
      simp [hj, ht] at h
      rw [← h]; rfl
    · intro h1 h2
      simp only [hj, if_neg h1, if_neg h2, Option.some.injEq] at h
      rw [← h]; rfl

/-- What one `update` call does, given its position error. -/
lemma update_spec (M_PI : α) (s : JointPositionController α) (time period : α) (trylock : Bool)
    (r : JointPositionController α × UpdateLocals α)
    (h : update M_PI s time period trylock = some r) :
    r.2.command = setpoint s ∧
    r.2.vel_error = 0 - s.joint_.getVelocity ∧
    r.2.commanded_effort =
      (s.pid_controller_.computeCommand r.2.error (0 - s.joint_.getVelocity) period).2 ∧
    r.1.joint_ = s.joint_.setCommand r.2.commanded_effort ∧
    r.1.pid_controller_ =
      (s.pid_controller_.computeCommand r.2.error (0 - s.joint_.getVelocity) period).1 ∧
    r.1.joint_urdf_ = s.joint_urdf_ ∧
    r.1.command_ = s.command_.readFromRT.1 ∧
    r.1.loop_count_ = s.loop_count_ + 1 ∧
    r.1.controller_state_publisher_.isSome = s.controller_state_publisher_.isSome ∧
    (r.2.published.isSome = true ↔
      s.loop_count_ % 10 = 0 ∧ s.controller_state_publisher_.isSome = true ∧ trylock = true) := by
  unfold update at h
  cases hj : s.joint_urdf_ with
  | none => simp [hj] at h
  | some j =>
    simp only [hj] at h
    split at h
    · exact absurd h (by simp)
    · rename_i e he
      simp only [Option.some.injEq] at h
      subst h
      refine ⟨rfl, rfl, rfl, rfl, rfl, rfl, rfl, rfl, ?_, ?_⟩
      · by_cases h10 : s.loop_count_ % 10 = 0 <;> cases hp : s.controller_state_publisher_ <;>
          cases trylock <;> simp [h10]
      · by_cases h10 : s.loop_count_ % 10 = 0 <;> cases hp : s.controller_state_publisher_ <;>
          cases trylock <;> simp [h10]

/-- With the joint metadata present, `update` returns. -/
lemma update_isSome (M_PI : α) (s : JointPositionController α) (time period : α)
    (trylock : Bool) (h : metadataPresent s = true) :
    ∃ r, update M_PI s time period trylock = some r := by
  unfold metadataPresent at h
  cases hj : s.joint_urdf_ with
  | none => simp [hj] at h
  | some j =>
    simp only [hj, Bool.or_eq_true, decide_eq_true_eq] at h
    unfold update
    simp only [hj]
    by_cases ht : j.type = urdf.JointType.REVOLUTE
    · rcases h with h | h
      · exact absurd ht h
      · obtain ⟨lim, hl⟩ := Option.isSome_iff_exists.mp h
        simp [ht, hl]
    · by_cases hc : j.type = urdf.JointType.CONTINUOUS
      · simp [hc]
      · simp [ht, hc]

end effort_controllers

/-! ## The claims -/

namespace effort_controllers

open hardware_interface control_toolbox realtime_tools controllers_msgs

variable {α : Type} [LinearOrderedField α] [FloorRing α]

lemma M_PI_value_pos : (0 : ℚ) < M_PI_value := by norm_num [M_PI_value]

/-- The outcome of `update` on a joint that is neither revolute nor continuous. -/
lemma update_prismatic (M_PI : α) (s : JointPositionController α) (j : urdf.Joint α)
    (time period : α) (trylock : Bool) (hj : s.joint_urdf_ = some j)
    (h1 : j.type ≠ urdf.JointType.REVOLUTE) (h2 : j.type ≠ urdf.JointType.CONTINUOUS) :
    ∃ r, update M_PI s time period trylock = some r ∧ r.2.command = setpoint s ∧
      r.2.error = setpoint s - s.joint_.getPosition := by
  have hm : metadataPresent s = true := by
    simp [metadataPresent, hj, h1]
  obtain ⟨r, hr⟩ := update_isSome M_PI s time period trylock hm
  obtain ⟨j2, hj2, -, -, he⟩ := update_error M_PI s time period trylock r hr
  have hjj : j2 = j := by rw [hj] at hj2; exact (Option.some.inj hj2).symm
  subst hjj
  exact ⟨r, hr, (update_spec M_PI s time period trylock r hr).1, he h1 h2⟩

/-- C4: for a joint that is neither revolute nor continuous (the prismatic branch), `update`
returns, and its position error is exactly the setpoint it read minus the measured position,
whatever the gains, the period, the limits and the rest of the controller state. -/
theorem C4_prismatic_error_exact (M_PI : α) (s : JointPositionController α) (j : urdf.Joint α)
    (time period : α) (trylock : Bool) (hj : s.joint_urdf_ = some j)
    (h1 : j.type ≠ urdf.JointType.REVOLUTE) (h2 : j.type ≠ urdf.JointType.CONTINUOUS) :
    ∃ r, update M_PI s time period trylock = some r ∧ r.2.command = setpoint s ∧
      r.2.error = setpoint s - s.joint_.getPosition :=
  update_prismatic M_PI s j time period trylock hj h1 h2

/-- C4, at a prismatic joint at position `1/4` commanded to `3/4`: the error is `1/2`. -/
theorem C4_prismatic_error_exact_witness :
    ∃ r, update M_PI_value (exampleCommanded examplePrismatic (1/4) (3/4) (examplePid 2 1 1 5 (-5)))
        0 1 true = some r ∧
      r.2.command = 3/4 ∧ r.2.error = 3/4 - 1/4 :=
  C4_prismatic_error_exact M_PI_value
    (exampleCommanded examplePrismatic (1/4) (3/4) (examplePid 2 1 1 5 (-5))) examplePrismatic
    0 1 true rfl (by decide) (by decide)


/-- The outcome of `update` on a revolute joint with limits. -/
lemma update_revolute (M_PI : α) (s : JointPositionController α) (j : urdf.Joint α)
    (lim : urdf.JointLimits α) (time period : α) (trylock : Bool)
    (hj : s.joint_urdf_ = some j) (ht : j.type = urdf.JointType.REVOLUTE)
    (hl : j.limits = some lim) :
    ∃ r, update M_PI s time period trylock = some r ∧ r.2.command = setpoint s ∧
      r.2.error = (angles.shortest_angular_distance_with_limits M_PI (setpoint s)
        s.joint_.getPosition lim.lower lim.upper).2 := by
  have hm : metadataPresent s = true := by
    simp [metadataPresent, hj, hl]
  obtain ⟨r, hr⟩ := update_isSome M_PI s time period trylock hm
  obtain ⟨j2, hj2, he, -, -⟩ := update_error M_PI s time period trylock r hr
  have hjj : j2 = j := by rw [hj] at hj2; exact (Option.some.inj hj2).symm
  subst hjj
  obtain ⟨lim2, hl2, he2⟩ := he ht
  have hll : lim2 = lim := by rw [hl] at hl2; exact (Option.some.inj hl2).symm
  subst hll
  exact ⟨r, hr, (update_spec M_PI s time period trylock r hr).1, he2⟩

/-- The outcome of `update` on a continuous joint. -/
lemma update_continuous (M_PI : α) (s : JointPositionController α) (j : urdf.Joint α)
    (time period : α) (trylock : Bool)
    (hj : s.joint_urdf_ = some j) (ht : j.type = urdf.JointType.CONTINUOUS) :
    ∃ r, update M_PI s time period trylock = some r ∧ r.2.command = setpoint s ∧
      r.2.error = angles.shortest_angular_distance M_PI (setpoint s) s.joint_.getPosition := by
  have hm : metadataPresent s = true := by
    simp [metadataPresent, hj, ht]
  obtain ⟨r, hr⟩ := update_isSome M_PI s time period trylock hm
  obtain ⟨j2, hj2, -, he, -⟩ := update_error M_PI s time period trylock r hr
  have hjj : j2 = j := by rw [hj] at hj2; exact (Option.some.inj hj2).symm
  subst hjj
  exact ⟨r, hr, (update_spec M_PI s time period trylock r hr).1, he ht⟩

/-- C2: the code computes the angular errors from the setpoint to the measured position.  For
a continuous joint at position `0` with setpoint `1`, and for a revolute joint with limits
`[-2, 2]` at position `0` with setpoint `1`, the error of `update` is `-1 = q - c`, while
`c - q = 1`. -/
theorem C2_angular_error_sign_reversed :
    (∃ r, update M_PI_value (exampleCommanded exampleContinuous 0 1 (examplePid 1 0 0 0 0))
        0 1 true = some r ∧ r.2.command = 1 ∧ r.2.error = -1 ∧ r.2.error ≠ 1 - 0) ∧
    (∃ r, update M_PI_value (exampleCommanded (exampleRevolute (-2) 2) 0 1 (examplePid 1 0 0 0 0))
        0 1 true = some r ∧ r.2.command = 1 ∧ r.2.error = -1 ∧ r.2.error ≠ 1 - 0) := by
  constructor
  · obtain ⟨r, hr, hc, he⟩ := update_continuous M_PI_value
      (exampleCommanded exampleContinuous 0 1 (examplePid 1 0 0 0 0)) exampleContinuous
      0 1 true rfl rfl
    have h1 : r.2.error = -1 := by
      rw [he]
      have := angles.shortest_angular_distance_eq M_PI_value 1 0 M_PI_value_pos 0
        (by norm_num [M_PI_value]) (by norm_num [M_PI_value])
      have e : angles.shortest_angular_distance M_PI_value 1 0 = -1 := by
        rw [this]; norm_num
      exact e
    exact ⟨r, hr, hc, h1, by rw [h1]; norm_num⟩
  · obtain ⟨r, hr, hc, he⟩ := update_revolute M_PI_value
      (exampleCommanded (exampleRevolute (-2) 2) 0 1 (examplePid 1 0 0 0 0))
      (exampleRevolute (-2) 2) { lower := -2, upper := 2 } 0 1 true rfl rfl rfl
    have h1 : r.2.error = -1 := by
      rw [he]
      have := angles.with_limits_inside M_PI_value 1 0 (-2) 2 M_PI_value_pos
        (by norm_num [M_PI_value]) (by norm_num) (by norm_num) (by norm_num) (by norm_num)
      have e : (angles.shortest_angular_distance_with_limits M_PI_value 1 0 (-2) 2).2 = -1 := by
        rw [this]; norm_num
      exact e
    exact ⟨r, hr, hc, h1, by rw [h1]; norm_num⟩

/-- C3: for a continuous joint `update` returns, its position error lies in `(-π, π]`, and
the magnitude of the error is the least of `|c - q + 2πk|` over the integers `k`, where `c` is
the setpoint and `q` the measured position: the error is the shorter way round. -/
theorem C3_continuous_error_shortest (M_PI : α) (hpi : 0 < M_PI)
    (s : JointPositionController α) (j : urdf.Joint α) (time period : α) (trylock : Bool)
    (hj : s.joint_urdf_ = some j) (ht : j.type = urdf.JointType.CONTINUOUS) :
    ∃ r, update M_PI s time period trylock = some r ∧
      -M_PI < r.2.error ∧ r.2.error ≤ M_PI ∧
      (∃ k : ℤ, |r.2.error| = |setpoint s - s.joint_.getPosition + 2 * M_PI * (k : α)|) ∧
      ∀ k : ℤ, |r.2.error| ≤ |setpoint s - s.joint_.getPosition + 2 * M_PI * (k : α)| := by
  obtain ⟨r, hr, -, he⟩ := update_continuous M_PI s j time period trylock hj ht
  have h := angles.shortest_angular_distance_shortest M_PI (setpoint s) s.joint_.getPosition hpi
  rw [← he] at h
  exact ⟨r, hr, h⟩

/-- C3, at a continuous joint at position `-3` with setpoint `3`. -/
theorem C3_continuous_error_shortest_witness :
    ∃ r, update M_PI_value (exampleCommanded exampleContinuous (-3) 3 (examplePid 1 0 0 0 0))
        0 1 true = some r ∧
      -M_PI_value < r.2.error ∧ r.2.error ≤ M_PI_value ∧
      (∃ k : ℤ, |r.2.error| = |(3 : ℚ) - (-3) + 2 * M_PI_value * (k : ℚ)|) ∧
      ∀ k : ℤ, |r.2.error| ≤ |(3 : ℚ) - (-3) + 2 * M_PI_value * (k : ℚ)| :=
  C3_continuous_error_shortest M_PI_value M_PI_value_pos
    (exampleCommanded exampleContinuous (-3) 3 (examplePid 1 0 0 0 0)) exampleContinuous
    0 1 true rfl rfl


/-- With `i = 0` and `d = 0` the engine returns the P-term plus the stored I-term clamped to
`[i_min, i_max]`. -/
lemma computeCommand_p_only (pid : Pid α) (error error_dot dt : α)
    (hi : pid.i_gain_ = 0) (hd : pid.d_gain_ = 0) :
    (pid.computeCommand error error_dot dt).2 =
      pid.p_gain_ * error + max pid.i_min_ (min pid.i_term_ pid.i_max_) := by
  simp [Pid.computeCommand, hi, hd]

/-- C5 fails as stated: a prismatic joint at position `0` with setpoint `1` and the gains
`p = 1, i = 0, d = 0, i_max = 5, i_min = 2`, on a freshly reset engine and with `dt = 1`, is
sent the effort `3`, not `p * (setpoint - position) = 1`. -/
theorem C5_clamp_window_counterexample :
    ∃ r, update M_PI_value (exampleCommanded examplePrismatic 0 1 (examplePid 1 0 0 5 2))
        0 1 true = some r ∧
      r.2.error = 1 ∧ r.1.joint_.cmd = 3 ∧ r.1.joint_.cmd ≠ 1 * (1 - 0) := by
  obtain ⟨r, hr, -, he⟩ := update_prismatic M_PI_value
    (exampleCommanded examplePrismatic 0 1 (examplePid 1 0 0 5 2)) examplePrismatic 0 1 true
    rfl (by decide) (by decide)
  obtain ⟨-, -, hce, hjt, -⟩ := update_spec M_PI_value _ 0 1 true r hr
  have he1 : r.2.error = 1 := by
    rw [he]
    norm_num [exampleCommanded, exampleReady, setpoint, setCommand, starting,
      RealtimeBuffer.writeFromNonRT, RealtimeBuffer.readFromRT, JointHandle.getPosition]
  have hc : r.1.joint_.cmd = 3 := by
    rw [hjt, hce, he1]
    norm_num [exampleCommanded, exampleReady, setCommand, starting, examplePid, Pid.reset,
      Pid.computeCommand, JointHandle.setCommand, JointHandle.getVelocity]
  exact ⟨r, hr, he1, hc, by rw [hc]; norm_num⟩

/-- C5, amended: `update` returns (the joint metadata being present), its velocity error is
`0 - measured velocity`, and the effort it writes to the joint handle is exactly the output of
the PID engine for (position error, velocity error, period).  For a prismatic joint with the
gains `p`, `i = 0`, `d = 0` that effort is `p * (setpoint - position)` plus the engine's stored
integral term clamped to `[i_min, i_max]`; it is `p * (setpoint - position)` when the stored
term is zero (as after `starting`) and `i_min ≤ 0 ≤ i_max`. -/
theorem C5_effort_is_pid_output (M_PI : α) (s : JointPositionController α)
    (time period : α) (trylock : Bool) (hm : metadataPresent s = true) :
    ∃ r, update M_PI s time period trylock = some r ∧
      r.2.vel_error = 0 - s.joint_.getVelocity ∧
      r.1.joint_.cmd = (s.pid_controller_.computeCommand r.2.error r.2.vel_error period).2 ∧
      (∀ j, s.joint_urdf_ = some j → j.type ≠ urdf.JointType.REVOLUTE →
        j.type ≠ urdf.JointType.CONTINUOUS →
        s.pid_controller_.i_gain_ = 0 → s.pid_controller_.d_gain_ = 0 →
        r.1.joint_.cmd = s.pid_controller_.p_gain_ * (setpoint s - s.joint_.getPosition) +
            max s.pid_controller_.i_min_
              (min s.pid_controller_.i_term_ s.pid_controller_.i_max_) ∧
        (s.pid_controller_.i_term_ = 0 → s.pid_controller_.i_min_ ≤ 0 →
          0 ≤ s.pid_controller_.i_max_ →
          r.1.joint_.cmd = s.pid_controller_.p_gain_ * (setpoint s - s.joint_.getPosition))) := by
  obtain ⟨r, hr⟩ := update_isSome M_PI s time period trylock hm
  obtain ⟨-, hv, hce, hjt, -⟩ := update_spec M_PI s time period trylock r hr
  have hcmd : r.1.joint_.cmd =
      (s.pid_controller_.computeCommand r.2.error r.2.vel_error period).2 := by
    rw [hjt, hv, ← hce]; rfl
  refine ⟨r, hr, hv, hcmd, ?_⟩
  intro j hj h1 h2 hi hd
  obtain ⟨r2, hr2, -, he⟩ := update_prismatic M_PI s j time period trylock hj h1 h2
  have hrr : r2 = r := by rw [hr] at hr2; exact (Option.some.inj hr2).symm
  subst hrr
  have hf := computeCommand_p_only s.pid_controller_ r2.2.error r2.2.vel_error period hi hd
  rw [he] at hf
  refine ⟨by rw [hcmd, he]; exact hf, ?_⟩
  intro h0 hlo hhi
  rw [hcmd, he, hf, h0, min_eq_left hhi, max_eq_right hlo, add_zero]

/-- C5, at the example of the spec: position `0`, setpoint `1`, prismatic, gains
`p = 1, i = 0, d = 0`, first update with `dt = 1`: the error is `1` and the effort is `1`. -/
theorem C5_effort_is_pid_output_witness :
    ∃ r, update M_PI_value (exampleCommanded examplePrismatic 0 1 (examplePid 1 0 0 0 0))
        0 1 true = some r ∧ r.2.error = 1 ∧ r.1.joint_.cmd = 1 := by
  obtain ⟨r, hr, -, -, hp⟩ := C5_effort_is_pid_output M_PI_value
    (exampleCommanded examplePrismatic 0 1 (examplePid 1 0 0 0 0)) 0 1 true rfl
  obtain ⟨r2, hr2, -, he⟩ := update_prismatic M_PI_value
    (exampleCommanded examplePrismatic 0 1 (examplePid 1 0 0 0 0)) examplePrismatic 0 1 true
    rfl (by decide) (by decide)
  have hrr : r2 = r := by rw [hr] at hr2; exact (Option.some.inj hr2).symm
  subst hrr
  have h1 := (hp examplePrismatic rfl (by decide) (by decide) rfl rfl).2 rfl (le_refl _) (le_refl _)
  refine ⟨r2, hr, ?_, ?_⟩
  · rw [he]
    norm_num [exampleCommanded, exampleReady, setpoint, setCommand, starting,
      RealtimeBuffer.writeFromNonRT, RealtimeBuffer.readFromRT, JointHandle.getPosition]
  · rw [h1]
    norm_num [exampleCommanded, exampleReady, setpoint, setCommand, starting, examplePid,
      Pid.reset, RealtimeBuffer.writeFromNonRT, RealtimeBuffer.readFromRT,
      JointHandle.getPosition]


/-- The constructor leaves the cycle counter at zero. -/
lemma new_loop_count : (JointPositionController.new : JointPositionController α).loop_count_ = 0 :=
  rfl

end effort_controllers
